import Mathlib

/-!
Shallow embedding of the email-address validation library (`src/src/lib.rs`).

Strings are modelled as `List Char`: a Rust `char` is a Unicode scalar value,
exactly Lean's `Char`, and a Rust `&str` is the UTF-8 encoding of such a list.
Rust's byte-oriented operations (`str::len`, byte slicing) are modelled through
`strLen`, the UTF-8 byte count of the list.

Rust string slicing can panic (index out of range); the local-part validator
reaches such a panic on the one-character candidate `"` (the slice
`part[1..0]`).  Functions that can reach a panic return `PResult`, which has an
explicit `panic` outcome; the others return `Except Error Unit` as in the
source.
-/

namespace EmailAddr

/-- The `Error` enum of the source, all thirteen variants. -/
inductive Error where
  | InvalidCharacter
  | MissingSeparator
  | LocalPartEmpty
  | LocalPartTooLong
  | DomainEmpty
  | DomainTooLong
  | SubDomainTooLong
  | DomainTooFew
  | DomainInvalidSeparator
  | UnbalancedQuotes
  | InvalidComment
  | InvalidIPAddress
  | CantHappen
deriving DecidableEq, Repr

/-- The `EmailAddress` struct: two owned strings.  The Rust field `local` is
named `local_part` here because `local` is a Lean keyword. -/
structure EmailAddress where
  local_part : List Char
  domain : List Char
deriving DecidableEq, Repr

/-- Result of a Rust function that may also panic (out-of-range slice). -/
inductive PResult (α : Type) where
  | ok : α → PResult α
  | err : Error → PResult α
  | panic : PResult α
deriving DecidableEq, Repr

-- Constants of the source (`const ... : usize / char`).
def LOCAL_PART_MAX_LENGTH : Nat := 64
def DOMAIN_MAX_LENGTH : Nat := 254
def SUB_DOMAIN_MAX_LENGTH : Nat := 63

def SP : Char := ' '
def HTAB : Char := '\t'
def ESC : Char := '\\'
def AT : Char := '@'
def DOT : Char := '.'
def DQUOTE : Char := '"'
def LBRACKET : Char := '['
def RBRACKET : Char := ']'
def LT : Char := '<'
def GT : Char := '>'
def UTF8_START : Char := Char.ofNat 0x80

/-- UTF-8 byte width of one scalar value; `strLen` below models Rust
`str::len`, which counts bytes. -/
def utf8Len (c : Char) : Nat :=
  if c.toNat < 0x80 then 1
  else if c.toNat < 0x800 then 2
  else if c.toNat < 0x10000 then 3
  else 4

/-- Rust `str::len`: number of UTF-8 bytes. -/
def strLen (s : List Char) : Nat := (s.map utf8Len).sum

/-- Rust `char::is_alphanumeric`, restricted to the ASCII range.  Its only
call site is `is_atext`, where it is disjoined with `is_uchar`, which is true
on every scalar value ≥ U+0080; so only the ASCII behaviour (ASCII letters and
digits) is observable there, and this definition agrees with the Rust one at
every observable point. -/
def is_alphanumeric (c : Char) : Bool :=
  (c ≥ '0' && c ≤ '9') || (c ≥ 'A' && c ≤ 'Z') || (c ≥ 'a' && c ≤ 'z')

/-- `is_uchar`: the RFC 6531/6532 UTF8-non-ascii extension, every scalar
value ≥ U+0080.  Rust compares `char`s by scalar value, which is `toNat`
here. -/
def is_uchar (c : Char) : Bool := decide (UTF8_START.toNat ≤ c.toNat)

/-- `is_atext` from the source: alphanumeric, a fixed punctuation set, or the
Unicode extension.  The apostrophe, backquote and brace characters are written
with `Char.ofNat` (39, 96, 123, 125). -/
def is_atext (c : Char) : Bool :=
  is_alphanumeric c
    || c == '!'
    || c == '#'
    || c == '$'
    || c == '%'
    || c == '&'
    || c == Char.ofNat 39
    || c == '*'
    || c == '+'
    || c == '-'
    || c == '/'
    || c == '='
    || c == '?'
    || c == '^'
    || c == '_'
    || c == Char.ofNat 96
    || c == Char.ofNat 123
    || c == '|'
    || c == Char.ofNat 125
    || c == '~'
    || is_uchar c

/-- `is_vchar`: printable ASCII 0x21–0x7E. -/
def is_vchar (c : Char) : Bool :=
  decide (0x21 ≤ c.toNat ∧ c.toNat ≤ 0x7E)

/-- `is_wsp`: space or horizontal tab. -/
def is_wsp (c : Char) : Bool := c == SP || c == HTAB

/-- `is_qtext_char`: 0x21, 0x23–0x5B, 0x5D–0x7E, or the Unicode extension. -/
def is_qtext_char (c : Char) : Bool :=
  decide (c.toNat = 0x21)
    || decide (0x23 ≤ c.toNat ∧ c.toNat ≤ 0x5B)
    || decide (0x5D ≤ c.toNat ∧ c.toNat ≤ 0x7E)
    || is_uchar c

/-- `is_dtext_char`: 0x21–0x5A or 0x5E–0x7E (no Unicode extension here). -/
def is_dtext_char (c : Char) : Bool :=
  decide (0x21 ≤ c.toNat ∧ c.toNat ≤ 0x5A)
    || decide (0x5E ≤ c.toNat ∧ c.toNat ≤ 0x7E)

/-- `is_uri_reserved` from the source: the characters percent-escaped by
`encode`. -/
def is_uri_reserved (c : Char) : Bool :=
  c == '!'
    || c == '#'
    || c == '$'
    || c == '%'
    || c == '&'
    || c == Char.ofNat 39
    || c == '('
    || c == ')'
    || c == '*'
    || c == '+'
    || c == ','
    || c == '/'
    || c == ':'
    || c == ';'
    || c == '='
    || c == '?'
    || c == '@'
    || c == '['
    || c == ']'

/-- Rust `str::split(sep)`: list of the separated segments, keeping empty
segments, so the empty string yields one empty segment. -/
def splitChar (sep : Char) : List Char → List (List Char)
  | [] => [[]]
  | c :: rest =>
    if c = sep then [] :: splitChar sep rest
    else
      match splitChar sep rest with
      | [] => [[c]]
      | h :: t => (c :: h) :: t

/-- Rust `str::rsplitn(2, sep)` reshaped: `some (before, after)` splits the
string at the LAST occurrence of `sep`; `none` when `sep` does not occur.
`parse_address` maps `before` to the local part and `after` to the domain. -/
def splitLast (sep : Char) : List Char → Option (List Char × List Char)
  | [] => none
  | c :: cs =>
    match splitLast sep cs with
    | some (l, r) => some (c :: l, r)
    | none => if c = sep then some ([], cs) else none

/-- `is_atom`: non-empty and all `atext`. -/
def is_atom (s : List Char) : Bool := !s.isEmpty && s.all is_atext

/-- `is_dot_atom_text`: every `.`-separated segment is an atom. -/
def is_dot_atom_text (s : List Char) : Bool :=
  (splitChar DOT s).all is_atom

/-- `is_qcontent`: the quoted-string interior scanner.  A `\` must be
followed by a `vchar` (the pair is a quoted-pair); any other character must be
`wsp` or `qtext`. -/
def is_qcontent : List Char → Bool
  | [] => true
  | c :: rest =>
    if c = ESC then
      match rest with
      | [] => false
      | c2 :: rest2 => if is_vchar c2 then is_qcontent rest2 else false
    else
      if is_wsp c || is_qtext_char c then is_qcontent rest else false

/-- `parse_quoted_local_part`. -/
def parse_quoted_local_part (part : List Char) : Except Error Unit :=
  if is_qcontent part then .ok () else .error .InvalidCharacter

/-- `parse_unquoted_local_part`. -/
def parse_unquoted_local_part (part : List Char) : Except Error Unit :=
  if is_dot_atom_text part then .ok () else .error .InvalidCharacter

/-- `parse_local_part`.  Lengths are byte lengths (`str::len`).  The branch
slicing `part[1..part.len() - 1]` panics in Rust when the byte length is 1
(slice start 1 exceeds slice end 0), which given the leading-quote test means
exactly the candidate `['"']`; the model returns `.panic` there. -/
def parse_local_part (part : List Char) : PResult Unit :=
  if part = [] then .err .LocalPartEmpty
  else if strLen part > LOCAL_PART_MAX_LENGTH then .err .LocalPartTooLong
  else if part.head? = some DQUOTE ∧ part.getLast? = some DQUOTE then
    if strLen part = 2 then .err .LocalPartEmpty
    else if strLen part = 1 then .panic
    else
      match parse_quoted_local_part ((part.drop 1).dropLast) with
      | .ok _ => .ok ()
      | .error e => .err e
  else
    match parse_unquoted_local_part part with
    | .ok _ => .ok ()
    | .error e => .err e

/-- `parse_literal_domain`: every interior character must be `dtext`. -/
def parse_literal_domain (part : List Char) : Except Error Unit :=
  if part.all is_dtext_char then .ok () else .error .InvalidCharacter

/-- `parse_text_domain`: dot-atom check, then the per-label byte-length
limit. -/
def parse_text_domain (part : List Char) : Except Error Unit :=
  if is_dot_atom_text part then
    if (splitChar DOT part).any (fun sub => strLen sub > SUB_DOMAIN_MAX_LENGTH)
    then .error .SubDomainTooLong
    else .ok ()
  else .error .InvalidCharacter

/-- `parse_domain`.  The bracket slice `part[1..part.len() - 1]` cannot panic:
`[` and `]` differ, so both tests passing forces at least two characters. -/
def parse_domain (part : List Char) : Except Error Unit :=
  if part = [] then .error .DomainEmpty
  else if strLen part > DOMAIN_MAX_LENGTH then .error .DomainTooLong
  else if part.head? = some LBRACKET ∧ part.getLast? = some RBRACKET then
    parse_literal_domain ((part.drop 1).dropLast)
  else parse_text_domain part

/-- The angle-bracket strip at the head of `parse_address`: when the string
both starts with `<` and ends with `>`, drop one character from each end. -/
def stripAngles (address : List Char) : List Char :=
  if address.head? = some LT ∧ address.getLast? = some GT
  then (address.drop 1).dropLast
  else address

/-- `parse_address`, the `FromStr` entry point.  The two `ok_or(CantHappen)`
calls in the source cannot fail once `rsplitn` produced two pieces, which is
what `splitLast` returning `some` means. -/
def parse_address (address : List Char) : PResult EmailAddress :=
  match splitLast AT (stripAngles address) with
  | none => .err .MissingSeparator
  | some (lp, dp) =>
    match parse_local_part lp with
    | .panic => .panic
    | .err e => .err e
    | .ok _ =>
      match parse_domain dp with
      | .error e => .err e
      | .ok _ => .ok ⟨lp, dp⟩

/-- `EmailAddress::is_valid_local_part`. -/
def is_valid_local_part (part : List Char) : Bool :=
  match parse_local_part part with
  | .ok _ => true
  | _ => false

/-- `EmailAddress::is_valid_domain`. -/
def is_valid_domain (part : List Char) : Bool :=
  match parse_domain part with
  | .ok _ => true
  | _ => false

/-- `EmailAddress::is_valid` (`from_str(address).is_ok()`). -/
def is_valid (address : List Char) : Bool :=
  match parse_address address with
  | .ok _ => true
  | _ => false

/-- `EmailAddress::to_string`: `[local, "@", domain].concat()`. -/
def to_string (a : EmailAddress) : List Char :=
  a.local_part ++ AT :: a.domain

/-- One uppercase hexadecimal digit, as produced by Rust's `{:02X}` format. -/
def hexDigit (n : Nat) : Char :=
  if n < 10 then Char.ofNat (48 + n) else Char.ofNat (55 + n)

/-- `encode`: percent-escape each reserved character as `%` plus the two
uppercase hex digits of `c as u8` (truncation to a byte, hence `% 256`). -/
def encode : List Char → List Char
  | [] => []
  | c :: rest =>
    (if is_uri_reserved c
     then ['%', hexDigit (c.toNat % 256 / 16), hexDigit (c.toNat % 256 % 16)]
     else [c]) ++ encode rest

/-- The `MAILTO_URI_PREFIX` constant `"mailto:"`, as a character list. -/
def mailtoUri : List Char := ['m', 'a', 'i', 'l', 't', 'o', ':']

/-- `EmailAddress::to_uri`. -/
def to_uri (a : EmailAddress) : List Char :=
  mailtoUri ++ encode (to_string a)

end EmailAddr

namespace EmailAddr

/-! ### Helper lemmas about the splitters -/

theorem splitLast_eq_none {sep : Char} :
    ∀ {s : List Char}, splitLast sep s = none ↔ sep ∉ s := by
  intro s
  induction s with
  | nil => simp [splitLast]
  | cons c cs ih =>
    simp only [splitLast]
    cases h : splitLast sep cs with
    | some p => simp_all
    | none =>
      have hcs : sep ∉ cs := ih.mp h
      by_cases hc : c = sep <;> simp_all [eq_comm]

theorem splitLast_sound {sep : Char} :
    ∀ {s l r : List Char}, splitLast sep s = some (l, r) →
      s = l ++ sep :: r ∧ sep ∉ r := by
  intro s
  induction s with
  | nil => intro l r h; simp [splitLast] at h
  | cons c cs ih =>
    intro l r h
    simp only [splitLast] at h
    cases hcs : splitLast sep cs with
    | some p =>
      rw [hcs] at h
      obtain ⟨l', r'⟩ := p
      obtain ⟨h1, h2⟩ := ih hcs
      simp only [Option.some.injEq, Prod.mk.injEq] at h
      obtain ⟨hl, hr⟩ := h
      subst hl; subst hr
      exact ⟨by simp [h1], h2⟩
    | none =>
      rw [hcs] at h
      by_cases hc : c = sep
      · simp only [if_pos hc, Option.some.injEq, Prod.mk.injEq] at h
        obtain ⟨hl, hr⟩ := h
        subst hl; subst hr
        exact ⟨by simp [hc], splitLast_eq_none.mp hcs⟩
      · simp [if_neg hc] at h

theorem splitLast_append {sep : Char} {r : List Char} (hr : sep ∉ r) :
    ∀ l : List Char, splitLast sep (l ++ sep :: r) = some (l, r) := by
  intro l
  induction l with
  | nil =>
    simp only [List.nil_append, splitLast]
    rw [splitLast_eq_none.mpr hr]
    simp
  | cons c l' ih =>
    simp only [List.cons_append, splitLast, List.append_eq, ih]

theorem splitChar_ne_nil (sep : Char) : ∀ s : List Char, splitChar sep s ≠ [] := by
  intro s
  induction s with
  | nil => simp [splitChar]
  | cons c cs ih =>
    simp only [splitChar]
    by_cases hc : c = sep
    · simp [hc]
    · simp only [if_neg hc]
      cases h : splitChar sep cs with
      | nil => simp
      | cons a t => simp

theorem splitChar_mem (sep : Char) {c : Char} :
    ∀ {s : List Char}, c ∈ s →
      c = sep ∨ ∃ seg, seg ∈ splitChar sep s ∧ c ∈ seg := by
  intro s
  induction s with
  | nil => simp
  | cons c0 cs ih =>
    intro hmem
    rcases List.mem_cons.mp hmem with hc0 | hcs
    · subst hc0
      by_cases h : c = sep
      · exact Or.inl h
      · right
        simp only [splitChar, if_neg h]
        cases hsp : splitChar sep cs with
        | nil => exact ⟨[c], by simp⟩
        | cons a t => exact ⟨c :: a, by simp⟩
    · rcases ih hcs with h | ⟨seg, hseg, hcse⟩
      · exact Or.inl h
      · right
        simp only [splitChar]
        by_cases h0 : c0 = sep
        · exact ⟨seg, by simp [if_pos h0, hseg], hcse⟩
        · simp only [if_neg h0]
          cases hsp : splitChar sep cs with
          | nil => simp [hsp] at hseg
          | cons a t =>
            rw [hsp] at hseg
            rcases List.mem_cons.mp hseg with rfl | ht
            · exact ⟨c0 :: seg, by simp, by simp [hcse]⟩
            · exact ⟨seg, by simp [ht], hcse⟩

theorem dot_atom_mem {s : List Char} (hs : is_dot_atom_text s = true) :
    ∀ {c : Char}, c ∈ s → c = DOT ∨ is_atext c = true := by
  intro c hc
  rcases splitChar_mem DOT hc with h | ⟨seg, hseg, hcse⟩
  · exact Or.inl h
  · right
    have hatom : is_atom seg = true :=
      List.all_eq_true.mp hs seg hseg
    simp only [is_atom, Bool.and_eq_true] at hatom
    exact List.all_eq_true.mp hatom.2 c hcse

/-! ### Case lemmas for the component validators -/

theorem parse_quoted_cases (p : List Char) :
    parse_quoted_local_part p = .ok () ∨
      parse_quoted_local_part p = .error .InvalidCharacter := by
  unfold parse_quoted_local_part
  split <;> simp

theorem parse_unquoted_cases (p : List Char) :
    parse_unquoted_local_part p = .ok () ∨
      parse_unquoted_local_part p = .error .InvalidCharacter := by
  unfold parse_unquoted_local_part
  split <;> simp

theorem parse_local_part_cases (p : List Char) :
    parse_local_part p = .ok () ∨
      parse_local_part p = .err .LocalPartEmpty ∨
      parse_local_part p = .err .LocalPartTooLong ∨
      parse_local_part p = .err .InvalidCharacter ∨
      parse_local_part p = .panic := by
  unfold parse_local_part
  split
  · simp
  · split
    · simp
    · split
      · split
        · simp
        · split
          · simp
          · rcases parse_quoted_cases (p.tail.dropLast) with h | h <;>
              simp [List.drop_one, h]
      · rcases parse_unquoted_cases p with h | h <;> simp [h]

theorem parse_domain_cases (p : List Char) :
    parse_domain p = .ok () ∨
      parse_domain p = .error .DomainEmpty ∨
      parse_domain p = .error .DomainTooLong ∨
      parse_domain p = .error .SubDomainTooLong ∨
      parse_domain p = .error .InvalidCharacter := by
  unfold parse_domain parse_literal_domain parse_text_domain
  split
  · simp
  · split
    · simp
    · split
      · split <;> simp
      · split
        · split <;> simp
        · simp

end EmailAddr

namespace EmailAddr

theorem parse_local_part_ne_missing (p : List Char) :
    parse_local_part p ≠ .err .MissingSeparator := by
  rcases parse_local_part_cases p with h | h | h | h | h <;> simp [h]

theorem parse_domain_ne_missing (p : List Char) :
    parse_domain p ≠ .error .MissingSeparator := by
  rcases parse_domain_cases p with h | h | h | h | h <;> simp [h]

theorem parse_domain_ok_ne_nil {p : List Char} (h : parse_domain p = .ok ()) :
    p ≠ [] := by
  intro hnil
  subst hnil
  simp [parse_domain] at h

theorem parse_domain_ok_getLast {p : List Char} (h : parse_domain p = .ok ()) :
    p.getLast? ≠ some GT := by
  unfold parse_domain at h
  split at h
  · simp at h
  · split at h
    · simp at h
    · split at h
      · rename_i hb
        rw [hb.2]
        simp [RBRACKET, GT]
      · rename_i hnil _ _
        unfold parse_text_domain at h
        split at h
        · rename_i hda
          intro hgt
          have hmem := List.mem_of_getLast?_eq_some hgt
          rcases dot_atom_mem hda hmem with h1 | h1
          · exact absurd h1 (by decide)
          · exact absurd h1 (by decide)
        · simp at h

theorem getLast?_append_of_ne_nil {l r : List Char} (hr : r ≠ []) :
    (l ++ r).getLast? = r.getLast? := by
  obtain ⟨c, hc⟩ := Option.isSome_iff_exists.mp (List.getLast?_isSome.mpr hr)
  simp [List.getLast?_append, hc]

end EmailAddr

namespace EmailAddr

/-- Claim C1: round-trip stability.  Every `EmailAddress` value produced by a
successful `parse_address` (`validate`/`from_str`) call re-validates from its
canonical serialization `to_string` (local ++ "@" ++ domain, quotes and
brackets retained as-is) to an equal value. -/
theorem round_trip_stability (s : List Char) (a : EmailAddress)
    (h : parse_address s = .ok a) : parse_address (to_string a) = .ok a := by
  unfold parse_address at h
  split at h
  · simp at h
  · rename_i lp dp hsplit
    split at h
    · simp at h
    · simp at h
    · rename_i u hl
      split at h
      · simp at h
      · rename_i v hd
        simp only [PResult.ok.injEq] at h
        subst h
        have hnotin : AT ∉ dp := (splitLast_sound hsplit).2
        have hdnil : dp ≠ [] := parse_domain_ok_ne_nil (by rw [hd])
        have hgt : dp.getLast? ≠ some GT := parse_domain_ok_getLast (by rw [hd])
        unfold parse_address to_string
        have hstrip : stripAngles (lp ++ AT :: dp) = lp ++ AT :: dp := by
          unfold stripAngles
          rw [if_neg]
          intro hcond
          have hlast : (lp ++ AT :: dp).getLast? = dp.getLast? := by
            rw [show lp ++ AT :: dp = (lp ++ [AT]) ++ dp by simp]
            exact getLast?_append_of_ne_nil hdnil
          rw [hlast] at hcond
          exact hgt hcond.2
        simp only [hstrip, splitLast_append hnotin lp, hl, hd]

/-- Witness for C1 at the concrete address `a@b`. -/
theorem round_trip_stability_witness :
    parse_address ('a' :: AT :: 'b' :: []) = .ok ⟨['a'], ['b']⟩ ∧
    parse_address (to_string ⟨['a'], ['b']⟩) = .ok ⟨['a'], ['b']⟩ :=
  ⟨by decide, round_trip_stability ('a' :: AT :: 'b' :: []) ⟨['a'], ['b']⟩ (by decide)⟩

/-- Claim C2 (refuted by the code, a bug): validation is NOT total.  On the
local-part candidate consisting of a single double-quote character the source
slices `part[1..0]`, which panics in Rust; `parse_address` reaches that
panic on the address `"@example.com`.  The model makes the panic an explicit
outcome and evaluates the code at the failing input. -/
theorem validation_panics_on_lone_dquote :
    parse_local_part [DQUOTE] = .panic ∧
    parse_address (DQUOTE :: AT :: "example.com".data) = .panic := by
  decide

/-- Claim C4: the address is split at the LAST occurrence of the separator.
First conjunct: the quoted example from the spec validates with
local = `"Abc@def"` (quotes retained) and domain = `example.com`.  Second
conjunct: whenever the splitter used by `parse_address` produces `(lp, dp)`,
the input is `lp ++ "@" ++ dp` and `dp` contains no separator, i.e. the split
is at the last occurrence. -/
theorem rightmost_split :
    (parse_address "\"Abc@def\"@example.com".data =
      .ok ⟨"\"Abc@def\"".data, "example.com".data⟩) ∧
    ∀ (s lp dp : List Char), splitLast AT s = some (lp, dp) →
      s = lp ++ AT :: dp ∧ AT ∉ dp := by
  exact ⟨by decide, fun s lp dp h => splitLast_sound h⟩

/-- Witness for C4's universally quantified conjunct at the string `a@b`. -/
theorem rightmost_split_witness :
    ('a' :: AT :: 'b' :: []) = ['a'] ++ AT :: ['b'] ∧ AT ∉ (['b'] : List Char) :=
  rightmost_split.2 ('a' :: AT :: 'b' :: []) ['a'] ['b'] (by decide)

/-- Claim C5: `parse_address` returns `MissingSeparator` exactly when the
input, after the angle-bracket strip (one leading `<` and one trailing `>`
removed when both are present), contains no occurrence of the separator. -/
theorem missing_separator_iff (s : List Char) :
    parse_address s = .err .MissingSeparator ↔ AT ∉ stripAngles s := by
  constructor
  · intro h
    unfold parse_address at h
    split at h
    · rename_i hsplit
      exact splitLast_eq_none.mp hsplit
    · rename_i lp dp hsplit
      exfalso
      split at h
      · simp at h
      · rename_i e hl
        simp only [PResult.err.injEq] at h
        subst h
        exact parse_local_part_ne_missing lp hl
      · split at h
        · rename_i e hd
          simp only [PResult.err.injEq] at h
          subst h
          exact parse_domain_ne_missing dp hd
        · simp at h
  · intro h
    unfold parse_address
    rw [splitLast_eq_none.mpr h]

/-- Claim C10: componentwise validity does not compose.  The local part `x`
and the domain `[a@b]` are each valid in isolation (dtext includes 0x40 =
`@`), yet validating `x@[a@b]` fails: the rightmost-split rule reassigns the
pieces and the local-part check rejects `x@[a`. -/
theorem component_validity_not_compositional :
    is_valid_local_part ['x'] = true ∧
    is_valid_domain (LBRACKET :: 'a' :: AT :: 'b' :: RBRACKET :: []) = true ∧
    parse_address (['x'] ++ AT :: (LBRACKET :: 'a' :: AT :: 'b' :: RBRACKET :: [])) =
      .err .InvalidCharacter := by
  decide

end EmailAddr

namespace EmailAddr

/-- Counterexample to C3 as stated: the local part of 33 copies of U+00E9
(`é`, two UTF-8 bytes) has only 33 Unicode scalar values — at most 64 — yet
validation fails with `LocalPartTooLong`, because the source compares
`part.len()`, the UTF-8 byte count (66 here), against the limit. -/
theorem local_part_scalar_count_refuted :
    parse_local_part (List.replicate 33 (Char.ofNat 0xE9)) = .err .LocalPartTooLong ∧
    (List.replicate 33 (Char.ofNat 0xE9)).length ≤ 64 := by
  decide

/-- Claim C3 as amended: the local-part length limit is counted in UTF-8
bytes, not Unicode scalar values.  For every non-empty candidate, validation
fails with `LocalPartTooLong` exactly when the UTF-8 byte length exceeds 64
(`LOCAL_PART_MAX_LENGTH`); for ASCII contents this coincides with the
64/65-scalar-value boundary of the original claim. -/
theorem local_part_length_bytes (p : List Char) (hp : p ≠ []) :
    parse_local_part p = .err .LocalPartTooLong ↔
      strLen p > LOCAL_PART_MAX_LENGTH := by
  unfold parse_local_part
  rw [if_neg hp]
  by_cases hlen : strLen p > LOCAL_PART_MAX_LENGTH
  · simp [hlen]
  · rw [if_neg hlen]
    constructor
    · intro h
      exfalso
      split at h
      · split at h
        · simp at h
        · split at h
          · simp at h
          · rcases parse_quoted_cases ((p.drop 1).dropLast) with hq | hq <;>
              rw [hq] at h <;> simp at h
      · rcases parse_unquoted_cases p with hq | hq <;> rw [hq] at h <;> simp at h
    · intro h
      exact absurd h hlen

/-- Witness for the amended C3 at the ASCII boundary: 65 `a`s (65 bytes) fail
with `LocalPartTooLong`, 64 `a`s do not. -/
theorem local_part_length_bytes_witness :
    parse_local_part (List.replicate 65 'a') = .err .LocalPartTooLong ∧
    parse_local_part (List.replicate 64 'a') ≠ .err .LocalPartTooLong :=
  ⟨(local_part_length_bytes _ (by decide)).mpr (by decide),
   fun hc => absurd ((local_part_length_bytes _ (by decide)).mp hc) (by decide)⟩

/-- Claim C6: bracketed domain acceptance is dtext-only.  A non-empty domain
candidate of acceptable byte length that begins with `[` and ends with `]`
validates exactly when every character strictly between the brackets is
`dtext` (0x21–0x5A or 0x5E–0x7E); in particular `[]`, `[192.168.2.1]` and
`[IPv6:2001:db8::1]` are all accepted, with no semantic IP validation. -/
theorem literal_domain_dtext_only :
    (∀ p : List Char, p ≠ [] → strLen p ≤ DOMAIN_MAX_LENGTH →
      p.head? = some LBRACKET → p.getLast? = some RBRACKET →
      (parse_domain p = .ok () ↔ (p.drop 1).dropLast.all is_dtext_char = true)) ∧
    parse_domain "[]".data = .ok () ∧
    parse_domain "[192.168.2.1]".data = .ok () ∧
    parse_domain "[IPv6:2001:db8::1]".data = .ok () := by
  refine ⟨?_, by rfl, by rfl, by rfl⟩
  intro p hne hlen hhd htl
  unfold parse_domain
  rw [if_neg hne, if_neg (by omega), if_pos ⟨hhd, htl⟩]
  unfold parse_literal_domain
  split <;> simp_all

/-- Witness for C6's universally quantified conjunct at the domain `[]`. -/
theorem literal_domain_dtext_only_witness :
    parse_domain (LBRACKET :: RBRACKET :: []) = .ok () :=
  (literal_domain_dtext_only.1 _ (by decide) (by decide) (by decide)
    (by decide)).mpr (by decide)

/-- Counterexample to C7 as stated: a single-label domain of 32 copies of
U+00E9 (`é`) has no dot-separated label longer than 63 characters (scalar
values), yet validation fails with `SubDomainTooLong`, because the source
compares the label's UTF-8 byte count (64 here) against the limit. -/
theorem sub_domain_scalar_count_refuted :
    parse_domain (List.replicate 32 (Char.ofNat 0xE9)) = .error .SubDomainTooLong ∧
    (splitChar DOT (List.replicate 32 (Char.ofNat 0xE9))).all
      (fun sub => sub.length ≤ 63) = true :=
  ⟨by rfl, by decide⟩

/-- Claim C7 as amended: for a non-empty, non-bracketed domain candidate of
overall byte length at most 254 that satisfies `is_dot_atom_text`, validation
fails with `SubDomainTooLong` exactly when some dot-separated label is longer
than 63 UTF-8 bytes (`SUB_DOMAIN_MAX_LENGTH`); for ASCII labels this
coincides with the 63/64-character boundary of the original claim. -/
theorem sub_domain_length_bytes (p : List Char) (hne : p ≠ [])
    (hlen : strLen p ≤ DOMAIN_MAX_LENGTH)
    (hnb : ¬(p.head? = some LBRACKET ∧ p.getLast? = some RBRACKET))
    (hda : is_dot_atom_text p = true) :
    parse_domain p = .error .SubDomainTooLong ↔
      (splitChar DOT p).any (fun sub => strLen sub > SUB_DOMAIN_MAX_LENGTH) = true := by
  unfold parse_domain
  rw [if_neg hne, if_neg (by omega), if_neg hnb]
  unfold parse_text_domain
  rw [if_pos hda]
  split <;> simp_all

/-- Witness for the amended C7 at the ASCII boundary: a 64-`a` label fails
with `SubDomainTooLong`. -/
theorem sub_domain_length_bytes_witness :
    parse_domain (List.replicate 64 'a') = .error .SubDomainTooLong :=
  (sub_domain_length_bytes _ (by decide) (by decide) (by decide)
    (by decide)).mpr (by decide)

end EmailAddr

namespace EmailAddr

/-- Claim C8: the quoted-pair rule of the quoted local-part interior scanner.
`parse_quoted_local_part` succeeds exactly on `is_qcontent` input and
otherwise fails with `InvalidCharacter`; a backslash must be immediately
followed by a `vchar` (printable ASCII 0x21–0x7E), so a backslash followed by
end of input fails, and space, tab and every non-ASCII scalar are not
`vchar`; every unescaped character must be `wsp` or `qtext`; the empty
interior succeeds. -/
theorem qcontent_quoted_pair_rule :
    (∀ p : List Char, parse_quoted_local_part p =
        if is_qcontent p then .ok () else .error .InvalidCharacter) ∧
    is_qcontent [] = true ∧
    (∀ (c : Char) (rest : List Char),
        is_qcontent (ESC :: c :: rest) = (is_vchar c && is_qcontent rest)) ∧
    is_qcontent [ESC] = false ∧
    (∀ (c : Char) (rest : List Char), c ≠ ESC →
        is_qcontent (c :: rest) = ((is_wsp c || is_qtext_char c) && is_qcontent rest)) ∧
    is_vchar SP = false ∧
    is_vchar HTAB = false ∧
    (∀ c : Char, is_uchar c = true → is_vchar c = false) := by
  refine ⟨fun p => rfl, rfl, ?_, by decide, ?_, by decide, by decide, ?_⟩
  · intro c rest
    by_cases h : is_vchar c <;> simp [is_qcontent, h]
  · intro c rest hc
    cases rest with
    | nil =>
      rw [is_qcontent.eq_2, if_neg hc]
      by_cases h : is_wsp c || is_qtext_char c <;> simp [h, is_qcontent]
    | cons c2 rest2 =>
      rw [is_qcontent.eq_3, if_neg hc]
      by_cases h : is_wsp c || is_qtext_char c <;> simp [h]
  · intro c hc
    simp only [is_uchar, decide_eq_true_eq] at hc
    have h80 : UTF8_START.toNat = 0x80 := rfl
    rw [h80] at hc
    simp only [is_vchar, decide_eq_false_iff_not, not_and, not_le]
    omega

/-- Witness for C8's hypothesis-bearing conjunct at the unescaped character
`a`. -/
theorem qcontent_quoted_pair_rule_witness :
    is_qcontent ('a' :: []) = ((is_wsp 'a' || is_qtext_char 'a') && is_qcontent []) :=
  qcontent_quoted_pair_rule.2.2.2.2.1 'a' [] (by decide)

theorem not_mem_encode {x : Char} (hhex : ∀ m ∈ List.range 16, hexDigit m ≠ x)
    (hp : x ≠ '%') (hx : is_uri_reserved x = true) :
    ∀ s : List Char, x ∉ encode s := by
  intro s
  induction s with
  | nil => simp [encode]
  | cons c rest ih =>
    simp only [encode]
    by_cases hc : is_uri_reserved c
    · rw [if_pos hc]
      simp only [List.cons_append, List.nil_append, List.mem_cons, List.mem_append]
      rintro (h | h | h | h)
      · exact hp h
      · exact hhex _ (List.mem_range.mpr (by omega)) h.symm
      · exact hhex _ (List.mem_range.mpr (by omega)) h.symm
      · exact ih h
    · rw [if_neg hc]
      simp only [List.cons_append, List.nil_append, List.mem_cons]
      rintro (h | h)
      · subst h
        exact hc hx
      · exact ih h

/-- Claim C9: URI formatting.  `to_uri` is `"mailto:"` followed by the
percent-encoding of the canonical string: each reserved character becomes `%`
plus the two uppercase hex digits of its code (`c as u8`), every other
character is unchanged; consequently the result starts with `"mailto:"` and
contains no literal `@`, `[` or `]`. -/
theorem to_uri_spec :
    (∀ a : EmailAddress, to_uri a = mailtoUri ++ encode (to_string a)) ∧
    (∀ (c : Char) (rest : List Char), encode (c :: rest) =
        (if is_uri_reserved c
         then ['%', hexDigit (c.toNat % 256 / 16), hexDigit (c.toNat % 256 % 16)]
         else [c]) ++ encode rest) ∧
    ((List.range 16).all (fun m =>
        ('0' ≤ hexDigit m && hexDigit m ≤ '9') ||
        ('A' ≤ hexDigit m && hexDigit m ≤ 'F'))) = true ∧
    (∀ a : EmailAddress,
        AT ∉ to_uri a ∧ LBRACKET ∉ to_uri a ∧ RBRACKET ∉ to_uri a) := by
  refine ⟨fun a => rfl, fun c rest => rfl, by decide, ?_⟩
  intro a
  refine ⟨?_, ?_, ?_⟩ <;>
    · unfold to_uri
      intro hmem
      rcases List.mem_append.mp hmem with h | h
      · revert h
        decide
      · revert h
        exact fun h => not_mem_encode (by decide) (by decide) (by decide) _ h

end EmailAddr
